import Mathlib

/-!
# Pollydent: text-to-speech client (Go), shallow embedding

The embedding follows `polly.go`, `audio_config.go` and `config.go`.

* A Go `string` that holds text (well-formed UTF-8) is a Lean `String`, a sequence
  of Unicode code points, so `len([]rune(msg))` is `msg.length`, while its `len` in
  bytes is `msg.utf8ByteSize`.
* A Go `int` is a Lean `Int`; no arithmetic is done on it, so no wrap-around.
* An `io.Reader` is the sequence of results of its successive `Read` calls.
* The collaborators behind interfaces or in other packages (the speaker, the
  synthesis provider, the audio device, the file system, the YAML decoder) are
  parameters: records of the results they give.
* Effects are recorded as a trace of events, in program order.
* A loop that may not terminate takes a fuel argument; running out of fuel is
  the result `Ret.running`, with the trace so far.
* Two goroutines that call `Play` on one `Pollydent` are two traces stepped in any
  order a schedule picks, with the shared `sync.Mutex` as one locked-or-not state.
-/

namespace pollydent

/-! ## Data model -/

/-- One byte of audio data. -/
abbrev Byte := Fin 256

/-- Go `error` values: the sentinel `io.EOF`, and any other error, told apart by its text. -/
inductive GoError where
  | EOF
  | other (text : String)
deriving DecidableEq, Repr

/-- The struct `SpeechParams` of `polly.go`. -/
structure SpeechParams where
  Message : String
  Voice : String
  Speed : Int
deriving DecidableEq, Repr

/-- Result of one `Read(data)` call: `data` is the slice `data[:n]` the call filled
(the reader keeps the `io.Reader` contract `0 <= n <= len(data)`), `err` the error
it returned (`none` is `nil`). -/
structure ReadResult where
  data : List Byte
  err : Option GoError
deriving DecidableEq, Repr

/-- An `io.Reader`, seen from its only user: the result of its `k`-th `Read` call
(counted from 0). -/
abbrev Reader := Nat → ReadResult

/-- The interface `Speaker`: `Send` returns the Go pair `(io.Reader, error)`;
`none` in either place is `nil`. -/
structure Speaker where
  Send : SpeechParams → Option Reader × Option GoError

/-- The interface `AudioConfig` of `audio_config.go`, by the values its methods return. -/
structure AudioConfig where
  SampleRate : Int
  NumOfChanel : Int
  ByteParSample : Int
deriving DecidableEq, Repr

/-- The implementation `PollyAudioConfig` of `audio_config.go`. -/
def PollyAudioConfig : AudioConfig :=
  { SampleRate := 16000, NumOfChanel := 1, ByteParSample := 2 }

/-- The struct `PollyConfig` of `config.go`. -/
structure PollyConfig where
  Region : String
  Format : String
  Voice : String
  TextType : String
  Speed : Int
deriving DecidableEq, Repr

/-- The function `defaultConfig` of `config.go`. -/
def defaultConfig : PollyConfig :=
  { Region := "eu-west-1", Format := "pcm", Voice := "Joanna", TextType := "ssml", Speed := 100 }

/-- The audio library `oto`, by the results it gives: `NewContext` returns its error
(`none` when the context opens), `Write` returns the pair `(n, err)`. -/
structure AudioDevice where
  NewContext : Int → Int → Int → Int → Option GoError
  Write : List Byte → Int × Option GoError

/-- What the program does to the outside, in program order. -/
inductive Event where
  | mutexLock
  | mutexUnlock
  | send (params : SpeechParams)
  | read
  | newContext (sampleRate channelNum byteDepth bufferSize : Int)
  | newPlayer
  | write (data : List Byte)
  | playerClose
  | contextClose
deriving DecidableEq, Repr

/-- How a call ended: still running when the fuel ran out, a Go panic, or a return
with the error value (`none` is `nil`). -/
inductive Ret where
  | running
  | panicked
  | returned (err : Option GoError)
deriving DecidableEq, Repr

/-- A run of a call: the events it caused and how it ended. -/
structure Run where
  trace : List Event
  ret : Ret
deriving DecidableEq, Repr

/-- The struct `Pollydent` of `polly.go`. The mutex shows as the events `mutexLock`
and `mutexUnlock`. -/
structure Pollydent where
  audioConfig : AudioConfig
  speaker : Speaker

/-! ## `Pollydent.Play` -/

/-- How the drain loop of `Play` (lines 93 to 105) ends. -/
inductive LoopExit where
  | outOfFuel
  | failed (err : GoError)
  | done (totalData : List Byte)
deriving DecidableEq, Repr

/-- The drain loop of `Play`: iteration `k` calls `reader.Read`; on an error other
than `io.EOF` the function returns it, on `io.EOF` the bytes are appended and the
loop ends, otherwise the bytes are appended and the loop goes on. -/
def drainLoop (reader : Reader) : Nat → Nat → List Byte → List Event × LoopExit
  | 0, _, _ => ([], LoopExit.outOfFuel)
  | fuel + 1, k, totalData =>
    match (reader k).err with
    | some err =>
      if err ≠ GoError.EOF then ([Event.read], LoopExit.failed err)
      else ([Event.read], LoopExit.done (totalData ++ (reader k).data))
    | none =>
      let rest := drainLoop reader fuel (k + 1) (totalData ++ (reader k).data)
      (Event.read :: rest.1, rest.2)

/-- The chunks a reader delivers in its calls `k`, `k + 1`, ..., `k + n - 1`, joined in
the order of the calls. -/
def chunksFrom (reader : Reader) (k n : Nat) : List Byte :=
  ((List.range n).map (fun i => (reader (k + i)).data)).flatten

/-- The method `Pollydent.Play`. The deferred calls run in reverse order of their
`defer` statements when the function returns: `player.Close`, `playerCtx.Close`,
`playMutex.Unlock`. A `nil` reader panics at the first `Read`. -/
def Pollydent.Play (p : Pollydent) (dev : AudioDevice) (fuel : Nat) : Option Reader → Run
  | none => ⟨[Event.mutexLock, Event.mutexUnlock], Ret.panicked⟩
  | some reader =>
    match drainLoop reader fuel 0 [] with
    | (reads, LoopExit.outOfFuel) => ⟨Event.mutexLock :: reads, Ret.running⟩
    | (reads, LoopExit.failed err) =>
      ⟨Event.mutexLock :: reads ++ [Event.mutexUnlock], Ret.returned (some err)⟩
    | (reads, LoopExit.done totalData) =>
      let open_ := Event.newContext p.audioConfig.SampleRate p.audioConfig.NumOfChanel
        p.audioConfig.ByteParSample (totalData.length : Int)
      match dev.NewContext p.audioConfig.SampleRate p.audioConfig.NumOfChanel
          p.audioConfig.ByteParSample (totalData.length : Int) with
      | some err =>
        ⟨Event.mutexLock :: reads ++ [open_, Event.mutexUnlock], Ret.returned (some err)⟩
      | none =>
        ⟨Event.mutexLock :: reads ++
            [open_, Event.newPlayer, Event.write totalData, Event.playerClose,
              Event.contextClose, Event.mutexUnlock],
          Ret.returned (dev.Write totalData).2⟩

/-! ## `Pollydent.ReadAloud` -/

/-- The text `fmt.Errorf` builds at line 136; `%d` prints the length in decimal. -/
def sizeErrorText (msgLen : Nat) : String :=
  "message size is " ++ Nat.repr msgLen ++ ". Please pass with the length of 1500 or less"

/-- The method `Pollydent.ReadAloud`. The value `Play` returns is dropped (line 144)
and `err`, which is `nil` there, is returned. -/
def Pollydent.ReadAloud (p : Pollydent) (dev : AudioDevice) (fuel : Nat) (msg : String) : Run :=
  if msg.length > 1500 then
    ⟨[], Ret.returned (some (GoError.other (sizeErrorText msg.length)))⟩
  else
    let params : SpeechParams := { Message := msg, Voice := "", Speed := 0 }
    match p.speaker.Send params with
    | (_, some err) => ⟨[Event.send params], Ret.returned (some err)⟩
    | (reader, none) =>
      let played := p.Play dev fuel reader
      ⟨Event.send params :: played.trace,
        match played.ret with
        | Ret.returned _ => Ret.returned none
        | r => r⟩

/-- The parameters of the `Send` calls recorded in a trace, in order. -/
def sendCalls : List Event → List SpeechParams
  | [] => []
  | Event.send params :: rest => params :: sendCalls rest
  | _ :: rest => sendCalls rest

/-! ## `PollySpeaker.Send` -/

/-- The function `strconv.Itoa`: the decimal text of an `int`. -/
def Itoa : Int → String
  | Int.ofNat n => Nat.repr n
  | Int.negSucc n => "-" ++ Nat.repr (n + 1)

/-- The struct `polly.SynthesizeSpeechInput`, with the four fields `Send` sets. -/
structure SynthesizeSpeechInput where
  OutputFormat : String
  Text : String
  TextType : String
  VoiceId : String
deriving DecidableEq, Repr

/-- The AWS session with its Polly client, by the result of the one request made on it:
`SynthesizeSpeech region params` is the pair `(resp.AudioStream, err)`. -/
structure Session where
  SynthesizeSpeech : String → SynthesizeSpeechInput → Option Reader × Option GoError

/-- The struct `PollySpeaker` of `polly.go`. -/
structure PollySpeaker where
  config : PollyConfig
  sess : Session

/-- Lines 35 to 52 of `PollySpeaker.Send`: the defaults are filled in, the text is built
and the request struct `params` is made. -/
def PollySpeaker.params (p : PollySpeaker) (config : SpeechParams) : SynthesizeSpeechInput :=
  let config := if config.Speed = 0 then { config with Speed := p.config.Speed } else config
  let config := if config.Voice = "" then { config with Voice := p.config.Voice } else config
  let text := "<speak><prosody rate=\"" ++ Itoa config.Speed ++ "%\"><![CDATA[" ++
    config.Message ++ "]]></prosody></speak>"
  { OutputFormat := p.config.Format
    Text := text
    TextType := p.config.TextType
    VoiceId := config.Voice }

/-- The method `PollySpeaker.Send`: the request goes to the provider in the configured
region; an error is returned with a `nil` reader, otherwise the audio stream. -/
def PollySpeaker.Send (p : PollySpeaker) (config : SpeechParams) :
    Option Reader × Option GoError :=
  match p.sess.SynthesizeSpeech p.config.Region (p.params config) with
  | (_, some err) => (none, some err)
  | (audioStream, none) => (audioStream, none)

/-- The function `NewPollydentWithPolly`; `newSession` stands for
`credentials.NewStaticCredentials` followed by `session.New`. -/
def NewPollydentWithPolly (newSession : String → String → Session)
    (accessKey secretKey : String) (config : Option PollyConfig) :
    Option Pollydent × Option GoError :=
  if accessKey = "" ∨ secretKey = "" then
    (none, some (GoError.other "Access key or Secret key are invalid"))
  else
    let sess := newSession accessKey secretKey
    let config := match config with
      | none => defaultConfig
      | some c => c
    (some { audioConfig := PollyAudioConfig
            speaker := ⟨PollySpeaker.Send ⟨config, sess⟩⟩ }, none)

/-! ## `config.go` -/

/-- An opened file, by what `ioutil.ReadAll` gives on it. -/
structure File where
  ReadAll : Except GoError (List Byte)

/-- The collaborators of `Load`: `os.Open` on a path, and `yaml.Unmarshal` of the data
into a configuration (the decoded configuration, or the error). -/
structure ConfigEnv where
  Open : String → Except GoError File
  Unmarshal : List Byte → PollyConfig → Except GoError PollyConfig

/-- The function `load` of `config.go`; the result is the Go pair
`(*PollyConfig, error)`, `none` being `nil`. -/
def load (env : ConfigEnv) (r : File) : Option PollyConfig × Option GoError :=
  let pc := defaultConfig
  match r.ReadAll with
  | Except.error err => (none, some err)
  | Except.ok data =>
    match env.Unmarshal data pc with
    | Except.error err => (none, some err)
    | Except.ok pc => (some pc, none)

/-- The function `Load` of `config.go`. -/
def Load (env : ConfigEnv) (filepath : String) : Option PollyConfig × Option GoError :=
  match env.Open filepath with
  | Except.error err => (some defaultConfig, some err)
  | Except.ok f => load env f

/-! ## Reading the markup back

What an XML reader takes as the content of the first character-data section of a
text: what stands between the first `<![CDATA[` and the first `]]>` after it. -/

/-- Split a text at the first place where `pat` occurs: the part before, the part after. -/
def splitFirst (pat : List Char) : List Char → Option (List Char × List Char)
  | [] => if pat = [] then some ([], []) else none
  | c :: cs =>
    if pat.isPrefixOf (c :: cs) then some ([], (c :: cs).drop pat.length)
    else (splitFirst pat cs).map (fun r => (c :: r.1, r.2))

/-- Content of the first character-data section of a text, and what follows the
terminator that closes it. -/
def cdataSection (text : String) : Option (String × String) :=
  match splitFirst "<![CDATA[".data text.data with
  | none => none
  | some (_, opened) =>
    match splitFirst "]]>".data opened with
    | none => none
    | some (content, rest) => some (String.mk content, String.mk rest)

/-- The rate attribute of a text: what stands between the first `rate="` and the first
`%"` after it. -/
def prosodyRate (text : String) : Option String :=
  match splitFirst "rate=\"".data text.data with
  | none => none
  | some (_, opened) =>
    match splitFirst "%\"".data opened with
    | none => none
    | some (rate, _) => some (String.mk rate)

/-! ## Two calls of `Play` on one `Pollydent`

Two goroutines each run one call of `Play` on the same `Pollydent`, so on the same
mutex. Each call does the events of its own trace in order; a schedule says which of
the two calls makes the next step. -/

/-- The mutex `sync.Mutex`, by its state (locked or not). `Lock` goes through only on an
unlocked mutex, and on a locked one the caller waits; `Unlock` goes through only on a
locked mutex, and on an unlocked one the Go runtime stops the program; no other event
touches the mutex. -/
def mutexStep : Bool → Event → Option Bool
  | false, Event.mutexLock => some true
  | true, Event.mutexLock => none
  | true, Event.mutexUnlock => some false
  | false, Event.mutexUnlock => none
  | locked, _ => some locked

/-- Two calls under way: the state of the shared mutex and, for each call, the events
it has done and the events it has still to do. -/
structure TwoCalls where
  locked : Bool
  done0 : List Event
  rest0 : List Event
  done1 : List Event
  rest1 : List Event
deriving DecidableEq, Repr

/-- Two calls before their first step, with the mutex unlocked. -/
def TwoCalls.start (trace0 trace1 : List Event) : TwoCalls :=
  { locked := false, done0 := [], rest0 := trace0, done1 := [], rest1 := trace1 }

/-- One step of the first call (`false`) or of the second (`true`): the call does its
next event if the mutex lets it; `none` when the call has nothing left to do or has to
wait. -/
def TwoCalls.step (c : TwoCalls) : Bool → Option TwoCalls
  | false =>
    match c.rest0 with
    | [] => none
    | e :: rest =>
      match mutexStep c.locked e with
      | none => none
      | some locked => some { c with locked := locked, done0 := c.done0 ++ [e], rest0 := rest }
  | true =>
    match c.rest1 with
    | [] => none
    | e :: rest =>
      match mutexStep c.locked e with
      | none => none
      | some locked => some { c with locked := locked, done1 := c.done1 ++ [e], rest1 := rest }

/-- The state a schedule leads to; `none` when the schedule asks for a step that cannot
be made. -/
def TwoCalls.run (c : TwoCalls) : List Bool → Option TwoCalls
  | [] => some c
  | second :: sched =>
    match c.step second with
    | none => none
    | some next => next.run sched

/-- The event of opening the audio output context. -/
def isNewContext : Event → Bool
  | Event.newContext _ _ _ _ => true
  | _ => false

/-- A call is inside its device window: it has opened the audio output context and the
closing of that context is still to come. -/
def deviceOpen (done rest : List Event) : Bool :=
  done.any isNewContext && rest.contains Event.contextClose

/-- A trace without the events of the mutex. -/
def withoutMutex (trace : List Event) : List Event :=
  trace.filter (fun e => e ≠ Event.mutexLock ∧ e ≠ Event.mutexUnlock)

/-! ## Sample inputs -/

/-- A device that opens and takes every write whole. -/
def okDevice : AudioDevice :=
  { NewContext := fun _ _ _ _ => none
    Write := fun data => ((data.length : Int), none) }

/-- A device that cannot be opened. -/
def busyDevice : AudioDevice :=
  { NewContext := fun _ _ _ _ => some (GoError.other "device busy")
    Write := fun data => ((data.length : Int), none) }

/-- A stream of 500 bytes, delivered in one read together with `io.EOF`. -/
def stream500 : Reader :=
  fun _ => { data := List.replicate 500 0, err := some GoError.EOF }

/-- A stream of three reads: two bytes, then a zero-length read, then a last byte that
comes with `io.EOF`. -/
def threeReads : Reader
  | 0 => { data := [1, 2], err := none }
  | 1 => { data := [], err := none }
  | _ => { data := [3], err := some GoError.EOF }

/-- A stream that gives two bytes and then fails. -/
def brokenStream : Reader
  | 0 => { data := [1, 2], err := none }
  | _ => { data := [], err := some (GoError.other "connection reset") }

/-- A speaker whose provider cannot be reached. -/
def offlineSpeaker : Speaker :=
  { Send := fun _ => (none, some (GoError.other "no route to host")) }

/-- A speaker that answers with a stream that breaks. -/
def brokenSpeaker : Speaker :=
  { Send := fun _ => (some brokenStream, none) }

/-- A `Pollydent` as `NewPollydentWithPolly` builds it, with an unreachable provider. -/
def offlinePlayer : Pollydent :=
  { audioConfig := PollyAudioConfig, speaker := offlineSpeaker }

/-- A `Pollydent` whose speaker answers with a stream that breaks. -/
def brokenPlayer : Pollydent :=
  { audioConfig := PollyAudioConfig, speaker := brokenSpeaker }

/-- A message of 1500 copies of the two-byte character U+00E9: 3000 bytes. -/
def accentedMessage : String := String.mk (List.replicate 1500 (Char.ofNat 233))

/-- A session whose provider returns neither a stream nor an error. -/
def silentSession : Session :=
  { SynthesizeSpeech := fun _ _ => (none, none) }

/-- A `PollySpeaker` with the default configuration. -/
def defaultSpeaker : PollySpeaker :=
  { config := defaultConfig, sess := silentSession }

/-- A message that closes the character-data section itself and goes on with a tag. -/
def injectingMessage : String := "hi]]><break/><![CDATA["

/-- A file system where every path opens, with a decoder that rejects the contents. -/
def malformedEnv : ConfigEnv :=
  { Open := fun _ => Except.ok { ReadAll := Except.ok [114, 101, 103, 105, 111, 110, 58, 32, 91] }
    Unmarshal := fun _ _ => Except.error (GoError.other "yaml: did not find expected node content") }

/-- A file system where every path opens and reading the file fails. -/
def unreadableEnv : ConfigEnv :=
  { Open := fun _ => Except.ok { ReadAll := Except.error (GoError.other "read: is a directory") }
    Unmarshal := fun _ pc => Except.ok pc }

/-- A schedule of two calls: the first call makes its ten steps, then the second call
makes six. -/
def firstThenSecond : List Bool :=
  [false, false, false, false, false, false, false, false, false, false,
    true, true, true, true, true, true]

/-- Two calls of `Play` on the stream of three reads, the first one over, the second one
inside its device window with the mutex in its hand. -/
def secondPlaying : TwoCalls :=
  { locked := true
    done0 := [Event.mutexLock, Event.read, Event.read, Event.read,
      Event.newContext 16000 1 2 3, Event.newPlayer, Event.write [1, 2, 3],
      Event.playerClose, Event.contextClose, Event.mutexUnlock]
    rest0 := []
    done1 := [Event.mutexLock, Event.read, Event.read, Event.read,
      Event.newContext 16000 1 2 3, Event.newPlayer]
    rest1 := [Event.write [1, 2, 3], Event.playerClose, Event.contextClose,
      Event.mutexUnlock] }

/-- A message of 1501 ASCII characters. -/
def longMessage : String := String.mk (List.replicate 1501 (Char.ofNat 97))

end pollydent

namespace pollydent

/-! ## The drain loop -/

/-- The chunks from call `k` on are the chunk of call `k` followed by those from `k + 1` on. -/
theorem chunksFrom_succ (reader : Reader) (k n : Nat) :
    chunksFrom reader k (n + 1) = (reader k).data ++ chunksFrom reader (k + 1) n := by
  unfold chunksFrom
  rw [List.range_succ_eq_map, List.map_cons, List.flatten_cons, List.map_map]
  have hfun : ((fun i => (reader (k + i)).data) ∘ Nat.succ)
      = fun i => (reader (k + 1 + i)).data := by
    funext i
    simp only [Function.comp, Nat.succ_eq_add_one]
    congr 2
    omega
  rw [hfun]
  simp

/-- Every event of the drain loop is a `Read` call. -/
theorem drainLoop_trace_reads (reader : Reader) (fuel k : Nat) (acc : List Byte) :
    ∀ ev ∈ (drainLoop reader fuel k acc).1, ev = Event.read := by
  induction fuel generalizing k acc with
  | zero => intro ev hev; simp [drainLoop] at hev
  | succ f ih =>
    intro ev hev
    unfold drainLoop at hev
    split at hev
    · split at hev <;> simpa using hev
    · simp only [List.mem_cons] at hev
      rcases hev with h | h
      · exact h
      · exact ih _ _ ev h

/-- A reader that gives `n` reads without error from call `k` on and then `io.EOF`
is drained in `n + 1` calls, into the bytes had so far followed by its chunks. -/
theorem drainLoop_eof (reader : Reader) (n : Nat) :
    ∀ (k fuel : Nat) (acc : List Byte),
      (∀ i, i < n → (reader (k + i)).err = none) →
      (reader (k + n)).err = some GoError.EOF → n < fuel →
      drainLoop reader fuel k acc
        = (List.replicate (n + 1) Event.read,
            LoopExit.done (acc ++ chunksFrom reader k (n + 1))) := by
  induction n with
  | zero =>
    intro k fuel acc _ heof hfuel
    obtain ⟨f, rfl⟩ : ∃ f, fuel = f + 1 := ⟨fuel - 1, by omega⟩
    have heof0 : (reader k).err = some GoError.EOF := by simpa using heof
    simp [drainLoop, heof0, chunksFrom, List.range_succ]
  | succ n ih =>
    intro k fuel acc hok heof hfuel
    obtain ⟨f, rfl⟩ : ∃ f, fuel = f + 1 := ⟨fuel - 1, by omega⟩
    have h0 : (reader k).err = none := by simpa using hok 0 (by omega)
    have hok1 : ∀ i, i < n → (reader (k + 1 + i)).err = none := by
      intro i hi
      have := hok (i + 1) (by omega)
      rwa [show k + (i + 1) = k + 1 + i by omega] at this
    have heof1 : (reader (k + 1 + n)).err = some GoError.EOF := by
      rwa [show k + (n + 1) = k + 1 + n by omega] at heof
    have hrec := ih (k + 1) f (acc ++ (reader k).data) hok1 heof1 (by omega)
    rw [drainLoop, h0]
    simp only [hrec]
    rw [chunksFrom_succ reader k (n + 1), List.append_assoc]
    rfl

/-- A reader that gives `n` reads without error from call `k` on and then an error
other than `io.EOF` stops the loop at that call with that error. -/
theorem drainLoop_error (reader : Reader) (e : GoError) (he : e ≠ GoError.EOF) (n : Nat) :
    ∀ (k fuel : Nat) (acc : List Byte),
      (∀ i, i < n → (reader (k + i)).err = none) →
      (reader (k + n)).err = some e → n < fuel →
      drainLoop reader fuel k acc = (List.replicate (n + 1) Event.read, LoopExit.failed e) := by
  induction n with
  | zero =>
    intro k fuel acc _ herr hfuel
    obtain ⟨f, rfl⟩ : ∃ f, fuel = f + 1 := ⟨fuel - 1, by omega⟩
    have herr0 : (reader k).err = some e := by simpa using herr
    simp [drainLoop, herr0, he]
  | succ n ih =>
    intro k fuel acc hok herr hfuel
    obtain ⟨f, rfl⟩ : ∃ f, fuel = f + 1 := ⟨fuel - 1, by omega⟩
    have h0 : (reader k).err = none := by simpa using hok 0 (by omega)
    have hok1 : ∀ i, i < n → (reader (k + 1 + i)).err = none := by
      intro i hi
      have := hok (i + 1) (by omega)
      rwa [show k + (i + 1) = k + 1 + i by omega] at this
    have herr1 : (reader (k + 1 + n)).err = some e := by
      rwa [show k + (n + 1) = k + 1 + n by omega] at herr
    have hrec := ih (k + 1) f (acc ++ (reader k).data) hok1 herr1 (by omega)
    rw [drainLoop, h0]
    simp only [hrec]
    rfl

/-! ## `Pollydent.Play` -/

/-- Whatever the stream and the device do, `Play` takes the mutex exactly once and
never calls the speaker. -/
theorem Play_locks_once (p : Pollydent) (dev : AudioDevice) (fuel : Nat) (r : Option Reader) :
    (p.Play dev fuel r).trace.count Event.mutexLock = 1
      ∧ ∀ params, Event.send params ∉ (p.Play dev fuel r).trace := by
  cases r with
  | none => exact ⟨by simp [Pollydent.Play], by intro params; simp [Pollydent.Play]⟩
  | some reader =>
    have hreads := drainLoop_trace_reads reader fuel 0 []
    rcases hd : drainLoop reader fuel 0 [] with ⟨reads, exit_⟩
    rw [hd] at hreads
    have hlock : Event.mutexLock ∉ reads := by
      intro h; have := hreads _ h; cases this
    have hsend : ∀ params, Event.send params ∉ reads := by
      intro params h; have := hreads _ h; cases this
    have hcount : List.count Event.mutexLock reads = 0 := List.count_eq_zero.mpr hlock
    cases exit_ with
    | outOfFuel =>
      simp only [Pollydent.Play, hd]
      exact ⟨by simp [List.count_cons, hcount], by intro params; simpa using hsend params⟩
    | failed err =>
      simp only [Pollydent.Play, hd]
      exact ⟨by simp [List.count_cons, List.count_append, hcount],
        by intro params; simpa using hsend params⟩
    | done totalData =>
      simp only [Pollydent.Play, hd]
      split
      · exact ⟨by simp [List.count_cons, List.count_append, hcount],
          by intro params; simpa using hsend params⟩
      · exact ⟨by simp [List.count_cons, List.count_append, hcount],
          by intro params; simpa using hsend params⟩

/-- On every path of `Play` the mutex is taken first, nothing in between takes or
releases it, and it is released last whenever the call ends (by a return or a panic). -/
theorem Play_mutex_bracket (p : Pollydent) (dev : AudioDevice) (fuel : Nat)
    (r : Option Reader) :
    ∃ body : List Event,
      (∀ ev ∈ body, ev ≠ Event.mutexLock ∧ ev ≠ Event.mutexUnlock)
        ∧ ((p.Play dev fuel r).ret = Ret.running →
            (p.Play dev fuel r).trace = Event.mutexLock :: body)
        ∧ ((p.Play dev fuel r).ret ≠ Ret.running →
            (p.Play dev fuel r).trace = Event.mutexLock :: body ++ [Event.mutexUnlock]) := by
  cases r with
  | none => exact ⟨[], by simp, by simp [Pollydent.Play], by simp [Pollydent.Play]⟩
  | some reader =>
    have hreads := drainLoop_trace_reads reader fuel 0 []
    rcases hd : drainLoop reader fuel 0 [] with ⟨reads, exit_⟩
    rw [hd] at hreads
    have hbody : ∀ ev ∈ reads, ev ≠ Event.mutexLock ∧ ev ≠ Event.mutexUnlock := by
      intro ev hev
      rw [hreads ev hev]
      exact ⟨by decide, by decide⟩
    cases exit_ with
    | outOfFuel =>
      exact ⟨reads, hbody, by simp [Pollydent.Play, hd], by simp [Pollydent.Play, hd]⟩
    | failed err =>
      exact ⟨reads, hbody, by simp [Pollydent.Play, hd], by simp [Pollydent.Play, hd]⟩
    | done totalData =>
      cases ho : dev.NewContext p.audioConfig.SampleRate p.audioConfig.NumOfChanel
          p.audioConfig.ByteParSample (totalData.length : Int) with
      | some err =>
        refine ⟨reads ++ [Event.newContext p.audioConfig.SampleRate
          p.audioConfig.NumOfChanel p.audioConfig.ByteParSample (totalData.length : Int)],
          ?_, by simp [Pollydent.Play, hd, ho], by simp [Pollydent.Play, hd, ho]⟩
        intro ev hev
        rcases List.mem_append.mp hev with h | h
        · exact hbody ev h
        · simp only [List.mem_singleton] at h
          subst h
          exact ⟨by simp, by simp⟩
      | none =>
        refine ⟨reads ++ [Event.newContext p.audioConfig.SampleRate
          p.audioConfig.NumOfChanel p.audioConfig.ByteParSample (totalData.length : Int),
          Event.newPlayer, Event.write totalData, Event.playerClose, Event.contextClose],
          ?_, by simp [Pollydent.Play, hd, ho], by simp [Pollydent.Play, hd, ho]⟩
        intro ev hev
        rcases List.mem_append.mp hev with h | h
        · exact hbody ev h
        · simp only [List.mem_cons, List.mem_singleton, List.not_mem_nil, or_false] at h
          rcases h with h | h | h | h | h <;> subst h <;> exact ⟨by simp, by simp⟩

/-- C2. For a stream that gives `m` reads without error and then signals `io.EOF` at
read `m` (with or without bytes in that last read, with or without empty reads before),
the drain loop of `Play` makes exactly the `m + 1` reads and ends with the buffer equal
to the chunks of these reads joined in order; every write `Play` makes carries exactly
that buffer, and when the device opens `Play` does make that write. -/
theorem Play_buffer_is_concatenation (p : Pollydent) (dev : AudioDevice) (reader : Reader)
    (m fuel : Nat) (hok : ∀ i, i < m → (reader i).err = none)
    (heof : (reader m).err = some GoError.EOF) (hfuel : m < fuel) :
    drainLoop reader fuel 0 []
        = (List.replicate (m + 1) Event.read,
            LoopExit.done (((List.range (m + 1)).map (fun i => (reader i).data)).flatten))
      ∧ (∀ data, Event.write data ∈ (p.Play dev fuel (some reader)).trace →
          data = ((List.range (m + 1)).map (fun i => (reader i).data)).flatten)
      ∧ (dev.NewContext p.audioConfig.SampleRate p.audioConfig.NumOfChanel
            p.audioConfig.ByteParSample
            ((((List.range (m + 1)).map (fun i => (reader i).data)).flatten.length : Nat) : Int)
            = none →
          Event.write (((List.range (m + 1)).map (fun i => (reader i).data)).flatten)
            ∈ (p.Play dev fuel (some reader)).trace) := by
  have hd := drainLoop_eof reader m 0 fuel [] (by simpa using hok) (by simpa using heof) hfuel
  have hchunks : chunksFrom reader 0 (m + 1)
      = ((List.range (m + 1)).map (fun i => (reader i).data)).flatten := by
    simp [chunksFrom]
  rw [List.nil_append, hchunks] at hd
  refine ⟨hd, ?_, ?_⟩
  · intro data hmem
    simp only [Pollydent.Play, hd] at hmem
    split at hmem
    · simp at hmem
    · simpa using hmem
  · intro hopen
    simp only [Pollydent.Play, hd, hopen]
    simp

/-- C2, at a stream of three reads (two bytes, an empty read, a last byte together with
`io.EOF`): three reads are made, the buffer is the three bytes in order, and it is what
the player is given. -/
theorem Play_buffer_is_concatenation_witness :
    drainLoop threeReads 3 0 []
        = ([Event.read, Event.read, Event.read], LoopExit.done [1, 2, 3])
      ∧ Event.write [1, 2, 3] ∈ (offlinePlayer.Play okDevice 3 (some threeReads)).trace :=
  have h := Play_buffer_is_concatenation offlinePlayer okDevice threeReads 2 3
    (by intro i hi; interval_cases i <;> rfl) rfl (by decide)
  ⟨h.1, h.2.2 rfl⟩

/-- C3. For a stream that drains without error (`m` reads without error, then `io.EOF`)
to a buffer of `N` bytes, on a `Pollydent` with the audio configuration of
`PollyAudioConfig`, when the device opens and the write succeeds, `Play` does exactly:
take the mutex, the `m + 1` reads, open the context with 16000, 1, 2 and `N`, create a
player, write the whole buffer in one write, close the player, close the context,
release the mutex; and it returns `nil`. -/
theorem Play_device_sequence (p : Pollydent) (dev : AudioDevice) (reader : Reader)
    (m fuel : Nat) (hcfg : p.audioConfig = PollyAudioConfig)
    (hok : ∀ i, i < m → (reader i).err = none)
    (heof : (reader m).err = some GoError.EOF) (hfuel : m < fuel)
    (hopen : dev.NewContext 16000 1 2 ((chunksFrom reader 0 (m + 1)).length : Int) = none)
    (hwrite : (dev.Write (chunksFrom reader 0 (m + 1))).2 = none) :
    p.Play dev fuel (some reader)
      = { trace := Event.mutexLock :: List.replicate (m + 1) Event.read ++
            [Event.newContext 16000 1 2 ((chunksFrom reader 0 (m + 1)).length : Int),
              Event.newPlayer, Event.write (chunksFrom reader 0 (m + 1)),
              Event.playerClose, Event.contextClose, Event.mutexUnlock]
          ret := Ret.returned none } := by
  have hd := drainLoop_eof reader m 0 fuel [] (by simpa using hok) (by simpa using heof) hfuel
  rw [List.nil_append] at hd
  simp only [Pollydent.Play, hd, hcfg, PollyAudioConfig, hopen, hwrite]

/-- C3, at a stream of 500 bytes: the device is opened with size hint 500 and the 500
bytes are written in one write, then the player and the context are closed. -/
theorem Play_device_sequence_witness :
    offlinePlayer.Play okDevice 1 (some stream500)
        = { trace := [Event.mutexLock, Event.read, Event.newContext 16000 1 2 500,
              Event.newPlayer, Event.write (List.replicate 500 0), Event.playerClose,
              Event.contextClose, Event.mutexUnlock]
            ret := Ret.returned none }
      ∧ (List.replicate 500 (0 : Byte)).length = 500 := by
  have h := Play_device_sequence offlinePlayer okDevice stream500 0 1 rfl
    (by intro i hi; omega) rfl (by decide) rfl rfl
  have hc : chunksFrom stream500 0 1 = List.replicate 500 0 := by
    simp only [chunksFrom, stream500, List.range_succ, List.range_zero, List.nil_append,
      List.map_cons, List.map_nil, List.flatten_cons, List.flatten_nil, List.append_nil]
  rw [hc, List.length_replicate] at h
  exact ⟨h, List.length_replicate 500 0⟩

/-- C4. For a stream that drains without error, if opening the audio context fails with
error `e`, `Play` takes the mutex, makes the reads, tries to open the context, releases
the mutex and returns `e`: no player is created, nothing is written, no player and no
context is closed. -/
theorem Play_open_failure (p : Pollydent) (dev : AudioDevice) (reader : Reader)
    (m fuel : Nat) (e : GoError)
    (hok : ∀ i, i < m → (reader i).err = none)
    (heof : (reader m).err = some GoError.EOF) (hfuel : m < fuel)
    (hopen : dev.NewContext p.audioConfig.SampleRate p.audioConfig.NumOfChanel
      p.audioConfig.ByteParSample ((chunksFrom reader 0 (m + 1)).length : Int) = some e) :
    p.Play dev fuel (some reader)
        = { trace := Event.mutexLock :: List.replicate (m + 1) Event.read ++
              [Event.newContext p.audioConfig.SampleRate p.audioConfig.NumOfChanel
                  p.audioConfig.ByteParSample ((chunksFrom reader 0 (m + 1)).length : Int),
                Event.mutexUnlock]
            ret := Ret.returned (some e) }
      ∧ Event.newPlayer ∉ (p.Play dev fuel (some reader)).trace
      ∧ (∀ data, Event.write data ∉ (p.Play dev fuel (some reader)).trace)
      ∧ Event.playerClose ∉ (p.Play dev fuel (some reader)).trace
      ∧ Event.contextClose ∉ (p.Play dev fuel (some reader)).trace := by
  have hd := drainLoop_eof reader m 0 fuel [] (by simpa using hok) (by simpa using heof) hfuel
  rw [List.nil_append] at hd
  have hrun : p.Play dev fuel (some reader)
      = { trace := Event.mutexLock :: List.replicate (m + 1) Event.read ++
            [Event.newContext p.audioConfig.SampleRate p.audioConfig.NumOfChanel
                p.audioConfig.ByteParSample ((chunksFrom reader 0 (m + 1)).length : Int),
              Event.mutexUnlock]
          ret := Ret.returned (some e) } := by
    simp only [Pollydent.Play, hd, hopen]
  rw [hrun]
  refine ⟨rfl, ?_, ?_, ?_, ?_⟩ <;> simp [List.mem_replicate]

/-- C4, at the stream of three reads and a device that cannot be opened. -/
theorem Play_open_failure_witness :
    offlinePlayer.Play busyDevice 3 (some threeReads)
      = { trace := [Event.mutexLock, Event.read, Event.read, Event.read,
            Event.newContext 16000 1 2 3, Event.mutexUnlock]
          ret := Ret.returned (some (GoError.other "device busy")) } :=
  (Play_open_failure offlinePlayer busyDevice threeReads 2 3 (GoError.other "device busy")
    (by intro i hi; interval_cases i <;> rfl) rfl (by decide) rfl).1

/-- C5. For a stream whose read `m` returns an error `e` other than `io.EOF`, after `m`
reads without error, `Play` takes the mutex, makes these `m + 1` reads and no more,
releases the mutex and returns `e`: it opens no context, creates no player and writes
nothing. -/
theorem Play_read_error (p : Pollydent) (dev : AudioDevice) (reader : Reader)
    (m fuel : Nat) (e : GoError)
    (hok : ∀ i, i < m → (reader i).err = none)
    (herr : (reader m).err = some e) (hne : e ≠ GoError.EOF) (hfuel : m < fuel) :
    p.Play dev fuel (some reader)
        = { trace := Event.mutexLock :: List.replicate (m + 1) Event.read ++
              [Event.mutexUnlock]
            ret := Ret.returned (some e) }
      ∧ (∀ a b c d, Event.newContext a b c d ∉ (p.Play dev fuel (some reader)).trace)
      ∧ Event.newPlayer ∉ (p.Play dev fuel (some reader)).trace
      ∧ (∀ data, Event.write data ∉ (p.Play dev fuel (some reader)).trace) := by
  have hd := drainLoop_error reader e hne m 0 fuel [] (by simpa using hok)
    (by simpa using herr) hfuel
  have hrun : p.Play dev fuel (some reader)
      = { trace := Event.mutexLock :: List.replicate (m + 1) Event.read ++
            [Event.mutexUnlock]
          ret := Ret.returned (some e) } := by
    simp only [Pollydent.Play, hd]
  rw [hrun]
  refine ⟨rfl, ?_, ?_, ?_⟩ <;> simp [List.mem_replicate]

/-- C5, at a stream that gives two bytes and then fails: the two bytes are not played. -/
theorem Play_read_error_witness :
    offlinePlayer.Play okDevice 2 (some brokenStream)
      = { trace := [Event.mutexLock, Event.read, Event.read, Event.mutexUnlock]
          ret := Ret.returned (some (GoError.other "connection reset")) } :=
  (Play_read_error offlinePlayer okDevice brokenStream 1 2 (GoError.other "connection reset")
    (by intro i hi; interval_cases i; rfl) rfl (by decide) (by decide)).1

/-! ## `Pollydent.ReadAloud` -/

/-- A trace without `Send` events has no `Send` call. -/
theorem sendCalls_eq_nil (trace : List Event) (h : ∀ params, Event.send params ∉ trace) :
    sendCalls trace = [] := by
  induction trace with
  | nil => rfl
  | cons ev rest ih =>
    have hrest : ∀ params, Event.send params ∉ rest := fun params hmem =>
      h params (List.mem_cons_of_mem _ hmem)
    cases ev with
    | send params => exact absurd (List.mem_cons_self _ _) (h params)
    | _ => simpa [sendCalls] using ih hrest

/-- C1. With `n` the number of code points of `msg`: if `n <= 1500`, the run of
`ReadAloud msg` holds exactly one `Send` call, with `Message = msg`, empty voice and
speed 0, whatever the speaker answers and however far playback gets; if `n > 1500`,
the run holds no event at all (so no `Send` call) and returns the error with the text
`message size is n. Please pass with the length of 1500 or less`, `n` in decimal. -/
theorem ReadAloud_length_gate (p : Pollydent) (dev : AudioDevice) (fuel : Nat) (msg : String) :
    (msg.length ≤ 1500 →
        sendCalls (p.ReadAloud dev fuel msg).trace
          = [{ Message := msg, Voice := "", Speed := 0 }])
      ∧ (1500 < msg.length →
        p.ReadAloud dev fuel msg
          = { trace := []
              ret := Ret.returned (some (GoError.other
                ("message size is " ++ Nat.repr msg.length ++
                  ". Please pass with the length of 1500 or less"))) }) := by
  constructor
  · intro hlen
    have hnot : ¬ msg.length > 1500 := by omega
    simp only [Pollydent.ReadAloud, hnot, if_false]
    rcases hs : p.speaker.Send { Message := msg, Voice := "", Speed := 0 } with ⟨r, err⟩
    cases err with
    | some e => simp [sendCalls]
    | none =>
      simp only [sendCalls]
      rw [sendCalls_eq_nil _ (Play_locks_once p dev fuel r).2]
  · intro hlen
    simp [Pollydent.ReadAloud, hlen, sizeErrorText]

/-- C1, at a message of 1501 ASCII characters: the error names 1501 and nothing is sent. -/
theorem ReadAloud_length_gate_witness :
    longMessage.length = 1501
      ∧ offlinePlayer.ReadAloud okDevice 0 longMessage
        = { trace := []
            ret := Ret.returned (some (GoError.other
              "message size is 1501. Please pass with the length of 1500 or less")) } := by
  have hlen : longMessage.length = 1501 :=
    List.length_replicate 1501 (Char.ofNat 97)
  have h := (ReadAloud_length_gate offlinePlayer okDevice 0 longMessage).2 (by omega)
  rw [hlen] at h
  exact ⟨hlen, h⟩

/-- The UTF-8 size of `n` copies of a character. -/
theorem utf8Len_replicate (c : Char) (n : Nat) :
    String.utf8Len (List.replicate n c) = n * c.utf8Size := by
  induction n with
  | zero => simp
  | succ n ih => rw [List.replicate_succ, String.utf8Len_cons, ih, Nat.succ_mul]

/-- The limit counts code points, not bytes: a message of 1500 two-byte characters,
3000 bytes long, is sent. -/
theorem ReadAloud_counts_code_points :
    accentedMessage.length = 1500 ∧ accentedMessage.utf8ByteSize = 3000
      ∧ sendCalls (offlinePlayer.ReadAloud okDevice 0 accentedMessage).trace
        = [{ Message := accentedMessage, Voice := "", Speed := 0 }] := by
  have hlen : accentedMessage.length = 1500 := List.length_replicate 1500 (Char.ofNat 233)
  have hsize : accentedMessage.utf8ByteSize = 3000 := by
    show String.utf8Len (List.replicate 1500 (Char.ofNat 233)) = 3000
    rw [utf8Len_replicate]
    decide
  refine ⟨hlen, hsize, ?_⟩
  have hnot : ¬ accentedMessage.length > 1500 := by omega
  simp only [Pollydent.ReadAloud, hnot, if_false]
  rfl

/-- C8. For a message of at most 1500 code points: if `Send` returns an error `e`,
`ReadAloud` returns `e` and its run is the `Send` call alone (no `Play`, so the mutex is
never taken); if `Send` returns the stream `r` without error, the run is the `Send` call
followed by the run of one `Play` on `r` (the mutex is taken exactly once), and when that
`Play` returns, whatever error it returns, `ReadAloud` returns `nil`. -/
theorem ReadAloud_send_then_play (p : Pollydent) (dev : AudioDevice) (fuel : Nat)
    (msg : String) (hlen : msg.length ≤ 1500) :
    (∀ r e, p.speaker.Send { Message := msg, Voice := "", Speed := 0 } = (r, some e) →
        p.ReadAloud dev fuel msg
            = { trace := [Event.send { Message := msg, Voice := "", Speed := 0 }]
                ret := Ret.returned (some e) }
          ∧ Event.mutexLock ∉ (p.ReadAloud dev fuel msg).trace)
      ∧ (∀ r, p.speaker.Send { Message := msg, Voice := "", Speed := 0 } = (r, none) →
        (p.ReadAloud dev fuel msg).trace
            = Event.send { Message := msg, Voice := "", Speed := 0 }
                :: (p.Play dev fuel r).trace
          ∧ (p.ReadAloud dev fuel msg).trace.count Event.mutexLock = 1
          ∧ (∀ playErr, (p.Play dev fuel r).ret = Ret.returned playErr →
              (p.ReadAloud dev fuel msg).ret = Ret.returned none)) := by
  have hnot : ¬ msg.length > 1500 := by omega
  constructor
  · intro r e hs
    simp [Pollydent.ReadAloud, hnot, hs]
  · intro r hs
    have htrace : (p.ReadAloud dev fuel msg).trace
        = Event.send { Message := msg, Voice := "", Speed := 0 }
            :: (p.Play dev fuel r).trace := by
      simp only [Pollydent.ReadAloud, hnot, if_false, hs]
    refine ⟨htrace, ?_, ?_⟩
    · rw [htrace, List.count_cons, (Play_locks_once p dev fuel r).1]
      simp
    · intro playErr hret
      simp only [Pollydent.ReadAloud, hnot, if_false, hs, hret]

/-- C8, at a speaker whose stream breaks after two bytes: `Play` returns the read error
and `ReadAloud` returns `nil`. -/
theorem ReadAloud_send_then_play_witness :
    (brokenPlayer.Play okDevice 2 (some brokenStream)).ret
        = Ret.returned (some (GoError.other "connection reset"))
      ∧ (brokenPlayer.ReadAloud okDevice 2 "hello").ret = Ret.returned none :=
  have hplay : (brokenPlayer.Play okDevice 2 (some brokenStream)).ret
      = Ret.returned (some (GoError.other "connection reset")) := by decide
  ⟨hplay, ((ReadAloud_send_then_play brokenPlayer okDevice 2 "hello" (by decide)).2
    (some brokenStream) rfl).2.2 _ hplay⟩

/-! ## Decimal text and searching in a text -/

/-- The character of a decimal digit is a digit. -/
theorem digitChar_isDigit (d : Nat) (hd : d < 10) : (Nat.digitChar d).isDigit = true := by
  interval_cases d <;> decide

/-- The digit loop of the decimal conversion adds digits only. -/
theorem toDigitsCore_isDigit (fuel : Nat) :
    ∀ (n : Nat) (ds : List Char), (∀ c ∈ ds, c.isDigit = true) →
      ∀ c ∈ Nat.toDigitsCore 10 fuel n ds, c.isDigit = true := by
  induction fuel with
  | zero => intro n ds hds c hc; exact hds c (by simpa [Nat.toDigitsCore] using hc)
  | succ f ih =>
    intro n ds hds c hc
    have hcons : ∀ x ∈ Nat.digitChar (n % 10) :: ds, x.isDigit = true := by
      intro x hx
      rcases List.mem_cons.mp hx with rfl | hx
      · exact digitChar_isDigit _ (Nat.mod_lt _ (by decide))
      · exact hds x hx
    unfold Nat.toDigitsCore at hc
    simp only at hc
    split at hc
    · exact hcons c hc
    · exact ih _ _ hcons c hc

/-- The decimal text of a natural number holds digits only. -/
theorem repr_isDigit (n : Nat) : ∀ c ∈ (Nat.repr n).data, c.isDigit = true := by
  intro c hc
  exact toDigitsCore_isDigit (n + 1) n [] (by simp) c
    (by simpa [Nat.repr, Nat.toDigits, List.asString] using hc)

/-- The text `Itoa` gives holds digits and the minus sign only. -/
theorem Itoa_chars (i : Int) : ∀ c ∈ (Itoa i).data, c.isDigit = true ∨ c = '-' := by
  intro c hc
  cases i with
  | ofNat n => exact Or.inl (repr_isDigit n c hc)
  | negSucc n =>
    simp only [Itoa, String.data_append, List.mem_append] at hc
    rcases hc with hc | hc
    · right
      have : "-".data = ['-'] := rfl
      simpa [this] using hc
    · exact Or.inl (repr_isDigit _ c hc)

/-- A pattern is found right where it stands when its first character does not occur
before. -/
theorem splitFirst_skip (a : Char) (pt : List Char) (l s : List Char) (ha : a ∉ l) :
    splitFirst (a :: pt) (l ++ s)
      = (splitFirst (a :: pt) s).map (fun r => (l ++ r.1, r.2)) := by
  induction l with
  | nil =>
    cases h : splitFirst (a :: pt) s <;> simp [h]
  | cons x l ih =>
    have hx : x ≠ a := fun h => ha (h ▸ List.mem_cons_self _ _)
    have hl : a ∉ l := fun h => ha (List.mem_cons_of_mem _ h)
    have hpre : (a :: pt).isPrefixOf (x :: (l ++ s)) = false := by
      simp [List.isPrefixOf, Ne.symm hx]
    rw [List.cons_append, splitFirst, hpre, ih hl]
    cases h : splitFirst (a :: pt) s <;> simp [h]

/-- A pattern that stands at the head of a text is found there. -/
theorem splitFirst_here (a : Char) (pt : List Char) (s : List Char) :
    splitFirst (a :: pt) ((a :: pt) ++ s) = some ([], s) := by
  have hpre : (a :: pt).isPrefixOf (a :: (pt ++ s)) = true := by
    simp [List.isPrefixOf]
  rw [List.cons_append, splitFirst, hpre]
  simp

/-- The terminator `]]>` put after a text that does not hold it is found right after
that text: the text may end in `]` or `]]` without making an earlier match. -/
theorem splitFirst_terminator (msg rest : List Char)
    (hclean : splitFirst [']', ']', '>'] msg = none) :
    splitFirst [']', ']', '>'] (msg ++ ']' :: ']' :: '>' :: rest) = some (msg, rest) := by
  induction msg with
  | nil => simp [splitFirst, List.isPrefixOf]
  | cons c cs ih =>
    rw [splitFirst] at hclean
    split at hclean
    · cases hclean
    · rename_i hpre
      have htail : splitFirst [']', ']', '>'] cs = none := by
        cases h : splitFirst [']', ']', '>'] cs with
        | none => rfl
        | some r => rw [h] at hclean; cases hclean
      have hpre2 : List.isPrefixOf [']', ']', '>'] (c :: (cs ++ ']' :: ']' :: '>' :: rest))
          = false := by
        rcases cs with _ | ⟨d, _ | ⟨e, cs⟩⟩
        · simp [List.isPrefixOf]
        · simp [List.isPrefixOf]
        · simpa [List.isPrefixOf] using hpre
      rw [List.cons_append, splitFirst, hpre2, ih htail]
      simp

/-- The text of the request, as `Send` builds it. -/
theorem params_Text (p : PollySpeaker) (config : SpeechParams) :
    (p.params config).Text
      = "<speak><prosody rate=\"" ++
          Itoa (if config.Speed = 0 then p.config.Speed else config.Speed) ++
          "%\"><![CDATA[" ++ config.Message ++ "]]></prosody></speak>" := by
  unfold PollySpeaker.params
  by_cases hs : config.Speed = 0 <;> by_cases hv : config.Voice = "" <;> simp [hs, hv]

/-- The voice of the request, as `Send` builds it. -/
theorem params_VoiceId (p : PollySpeaker) (config : SpeechParams) :
    (p.params config).VoiceId
      = (if config.Voice = "" then p.config.Voice else config.Voice) := by
  unfold PollySpeaker.params
  by_cases hs : config.Speed = 0 <;> by_cases hv : config.Voice = "" <;> simp [hs, hv]

/-- Reading the template back: for every rate and every message, the rate attribute of
the text is the decimal text of the rate. -/
theorem prosodyRate_template (rate : Int) (msg : String) :
    prosodyRate ("<speak><prosody rate=\"" ++ Itoa rate ++ "%\"><![CDATA[" ++ msg ++
        "]]></prosody></speak>") = some (Itoa rate) := by
  have hA : "<speak><prosody rate=\"".data
      = ['<', 's', 'p', 'e', 'a', 'k', '>', '<', 'p', 'r', 'o', 's', 'o', 'd', 'y', ' ',
          'r', 'a', 't', 'e', '=', '"'] := rfl
  have hB : "%\"><![CDATA[".data
      = ['%', '"', '>', '<', '!', '[', 'C', 'D', 'A', 'T', 'A', '['] := rfl
  have hR : "rate=\"".data = ['r', 'a', 't', 'e', '=', '"'] := rfl
  have hP : "%\"".data = ['%', '"'] := rfl
  have hno : '%' ∉ (Itoa rate).data := by
    intro h
    rcases Itoa_chars rate _ h with h | h
    · exact absurd h (by decide)
    · exact absurd h (by decide)
  have hopen : ∀ s, splitFirst ['r', 'a', 't', 'e', '=', '"']
      (['<', 's', 'p', 'e', 'a', 'k', '>', '<', 'p', 'r', 'o', 's', 'o', 'd', 'y', ' ',
          'r', 'a', 't', 'e', '=', '"'] ++ s)
      = some (['<', 's', 'p', 'e', 'a', 'k', '>', '<', 'p', 'r', 'o', 's', 'o', 'd', 'y', ' '],
          s) := by
    intro s
    simp [splitFirst, List.isPrefixOf]
  unfold prosodyRate
  simp only [String.data_append, List.append_assoc, hA, hB, hR, hP, hopen]
  rw [splitFirst_skip '%' ['"'] _ _ hno]
  rw [show (['%', '"', '>', '<', '!', '[', 'C', 'D', 'A', 'T', 'A', '['] ++
      (msg.data ++ "]]></prosody></speak>".data))
      = ['%', '"'] ++ (['>', '<', '!', '[', 'C', 'D', 'A', 'T', 'A', '['] ++
      (msg.data ++ "]]></prosody></speak>".data)) from rfl]
  rw [splitFirst_here]
  simp

/-- Reading the template back: for every rate and every message that does not hold
`]]>`, the first character-data section of the text holds exactly the message and is
followed by the closing tags of the template. -/
theorem cdataSection_template (rate : Int) (msg : String)
    (hclean : splitFirst "]]>".data msg.data = none) :
    cdataSection ("<speak><prosody rate=\"" ++ Itoa rate ++ "%\"><![CDATA[" ++ msg ++
        "]]></prosody></speak>") = some (msg, "</prosody></speak>") := by
  have hA : "<speak><prosody rate=\"".data
      = ['<', 's', 'p', 'e', 'a', 'k', '>', '<', 'p', 'r', 'o', 's', 'o', 'd', 'y', ' ',
          'r', 'a', 't', 'e', '=', '"'] := rfl
  have hB : "%\"><![CDATA[".data
      = ['%', '"', '>', '<', '!', '[', 'C', 'D', 'A', 'T', 'A', '['] := rfl
  have hC : "]]></prosody></speak>".data
      = ']' :: ']' :: '>' :: "</prosody></speak>".data := rfl
  have hO : "<![CDATA[".data = ['<', '!', '[', 'C', 'D', 'A', 'T', 'A', '['] := rfl
  have hT : "]]>".data = [']', ']', '>'] := rfl
  rw [hT] at hclean
  have hno : '<' ∉ (Itoa rate).data := by
    intro h
    rcases Itoa_chars rate _ h with h | h
    · exact absurd h (by decide)
    · exact absurd h (by decide)
  have hhead : ∀ s, splitFirst ['<', '!', '[', 'C', 'D', 'A', 'T', 'A', '[']
      (['<', 's', 'p', 'e', 'a', 'k', '>', '<', 'p', 'r', 'o', 's', 'o', 'd', 'y', ' ',
          'r', 'a', 't', 'e', '=', '"'] ++ s)
      = (splitFirst ['<', '!', '[', 'C', 'D', 'A', 'T', 'A', '['] s).map
          (fun r => (['<', 's', 'p', 'e', 'a', 'k', '>', '<', 'p', 'r', 'o', 's', 'o', 'd',
            'y', ' ', 'r', 'a', 't', 'e', '=', '"'] ++ r.1, r.2)) := by
    intro s
    simp [splitFirst, List.isPrefixOf, Option.map_map, Function.comp_def]
  have hmid : ∀ s, splitFirst ['<', '!', '[', 'C', 'D', 'A', 'T', 'A', '[']
      (['%', '"', '>', '<', '!', '[', 'C', 'D', 'A', 'T', 'A', '['] ++ s)
      = some (['%', '"', '>'], s) := by
    intro s
    simp [splitFirst, List.isPrefixOf]
  unfold cdataSection
  simp only [String.data_append, List.append_assoc, hA, hB, hC, hO, hT, hhead]
  rw [splitFirst_skip '<' _ _ _ hno, hmid]
  simp only [Option.map_some']
  rw [splitFirst_terminator _ _ hclean]

/-! ## `PollySpeaker.Send` and `NewPollydentWithPolly` -/

/-- A `Pollydent` built by `NewPollydentWithPolly` has the audio configuration
`PollyAudioConfig`, and is built exactly when both keys are non-empty. -/
theorem NewPollydentWithPolly_audioConfig (newSession : String → String → Session)
    (accessKey secretKey : String) (config : Option PollyConfig) (p : Pollydent)
    (h : (NewPollydentWithPolly newSession accessKey secretKey config).1 = some p) :
    p.audioConfig = PollyAudioConfig ∧ accessKey ≠ "" ∧ secretKey ≠ "" := by
  unfold NewPollydentWithPolly at h
  split at h
  · simp at h
  · rename_i hkeys
    simp only [Option.some.injEq] at h
    subst h
    exact ⟨rfl, fun ha => hkeys (Or.inl ha), fun hb => hkeys (Or.inr hb)⟩

/-- C6. In the request `Send` builds, the voice is the configured voice when the
parameters give none and the given voice otherwise; the text is the template with the
rate set to the configured speed when the parameters give speed 0 and to the given speed
otherwise, and the rate attribute read back from the text is the decimal text of that
speed; each of the two depends only on its own field. Format and text type are the
configured ones, and the request is what goes to the provider. -/
theorem Send_fills_defaults (p : PollySpeaker) (config : SpeechParams) :
    (p.params config).VoiceId = (if config.Voice = "" then p.config.Voice else config.Voice)
      ∧ (p.params config).Text
          = "<speak><prosody rate=\"" ++
              Itoa (if config.Speed = 0 then p.config.Speed else config.Speed) ++
              "%\"><![CDATA[" ++ config.Message ++ "]]></prosody></speak>"
      ∧ prosodyRate (p.params config).Text
          = some (Itoa (if config.Speed = 0 then p.config.Speed else config.Speed))
      ∧ (p.params config).OutputFormat = p.config.Format
      ∧ (p.params config).TextType = p.config.TextType
      ∧ p.Send config
          = (match p.sess.SynthesizeSpeech p.config.Region (p.params config) with
            | (_, some err) => (none, some err)
            | (audioStream, none) => (audioStream, none)) := by
  refine ⟨params_VoiceId p config, params_Text p config, ?_, rfl, rfl, rfl⟩
  rw [params_Text, prosodyRate_template]

/-- For every message that does not hold `]]>`, the character-data section of the text
`Send` builds holds exactly the message and is closed by the terminator of the
template. -/
theorem Send_cdata_content_of_clean_message (p : PollySpeaker) (config : SpeechParams)
    (hclean : splitFirst "]]>".data config.Message.data = none) :
    cdataSection (p.params config).Text = some (config.Message, "</prosody></speak>") := by
  rw [params_Text, cdataSection_template _ _ hclean]

/-- C7, at the message `hi]]><break/><![CDATA[`: in the text `Send` builds, the
character-data section is closed by the `]]>` of the message; its content is `hi`, not
the message, and the rest of the message follows as markup. -/
theorem Send_cdata_closed_by_message :
    cdataSection (defaultSpeaker.params { Message := injectingMessage, Voice := "", Speed := 0 }).Text
        = some ("hi", "<break/><![CDATA[]]></prosody></speak>")
      ∧ (defaultSpeaker.params { Message := injectingMessage, Voice := "", Speed := 0 }).Text
        = "<speak><prosody rate=\"100%\"><![CDATA[hi]]><break/><![CDATA[]]></prosody></speak>" := by
  constructor <;> decide

/-! ## `Load` -/

/-- What `Load` returns in each of its three failures: the default configuration with
the error when the file does not open; no configuration (`nil`) with the error when the
file opens and cannot be read, or is read and cannot be decoded. -/
theorem Load_failures (env : ConfigEnv) (filepath : String) :
    (∀ e, env.Open filepath = Except.error e →
        Load env filepath = (some defaultConfig, some e))
      ∧ (∀ f e, env.Open filepath = Except.ok f → f.ReadAll = Except.error e →
        Load env filepath = (none, some e))
      ∧ (∀ f data e, env.Open filepath = Except.ok f → f.ReadAll = Except.ok data →
        env.Unmarshal data defaultConfig = Except.error e →
        Load env filepath = (none, some e)) := by
  refine ⟨?_, ?_, ?_⟩
  · intro e ho
    simp [Load, ho]
  · intro f e ho hr
    simp [Load, load, ho, hr]
  · intro f data e ho hr hu
    simp [Load, load, ho, hr, hu]

/-- C9, at a file that opens and whose contents the decoder rejects: `Load` returns the
error with a `nil` configuration, not the default configuration. -/
theorem Load_malformed_returns_nil :
    Load malformedEnv "polly.yml"
        = (none, some (GoError.other "yaml: did not find expected node content"))
      ∧ Load unreadableEnv "polly.yml" = (none, some (GoError.other "read: is a directory")) :=
  ⟨rfl, rfl⟩

/-! ## Two calls of `Play` on one `Pollydent` -/

/-- A step the mutex lets through keeps the balance: locks done so far are the unlocks
done so far, plus one when the mutex is locked. -/
theorem mutexStep_balance (locked next : Bool) (e : Event)
    (h : mutexStep locked e = some next) :
    List.count Event.mutexLock [e] + (if locked then 1 else 0)
      = List.count Event.mutexUnlock [e] + (if next then 1 else 0) := by
  cases e <;> cases locked <;> simp [mutexStep] at h <;> subst h <;> simp

/-- What every step keeps: each call has done a first part of its trace and has the other
part to do, and the locks done are the unlocks done, plus one when the mutex is locked. -/
theorem step_keeps (trace0 trace1 : List Event) (c next : TwoCalls) (second : Bool)
    (h0 : c.done0 ++ c.rest0 = trace0) (h1 : c.done1 ++ c.rest1 = trace1)
    (hbal : List.count Event.mutexLock c.done0 + List.count Event.mutexLock c.done1
      = List.count Event.mutexUnlock c.done0 + List.count Event.mutexUnlock c.done1
        + (if c.locked then 1 else 0))
    (hstep : c.step second = some next) :
    next.done0 ++ next.rest0 = trace0 ∧ next.done1 ++ next.rest1 = trace1
      ∧ List.count Event.mutexLock next.done0 + List.count Event.mutexLock next.done1
        = List.count Event.mutexUnlock next.done0 + List.count Event.mutexUnlock next.done1
          + (if next.locked then 1 else 0) := by
  cases second with
  | false =>
    simp only [TwoCalls.step] at hstep
    split at hstep
    · cases hstep
    · rename_i e rest hrest
      split at hstep
      · cases hstep
      · rename_i locked hm
        simp only [Option.some.injEq] at hstep
        subst hstep
        have hb := mutexStep_balance _ _ _ hm
        refine ⟨?_, h1, ?_⟩
        · simp only [List.append_assoc, List.singleton_append]
          rw [← hrest]; exact h0
        · simp only [List.count_append]
          omega
  | true =>
    simp only [TwoCalls.step] at hstep
    split at hstep
    · cases hstep
    · rename_i e rest hrest
      split at hstep
      · cases hstep
      · rename_i locked hm
        simp only [Option.some.injEq] at hstep
        subst hstep
        have hb := mutexStep_balance _ _ _ hm
        refine ⟨h0, ?_, ?_⟩
        · simp only [List.append_assoc, List.singleton_append]
          rw [← hrest]; exact h1
        · simp only [List.count_append]
          omega

/-- What every schedule keeps, from any state that has it. -/
theorem run_keeps (trace0 trace1 : List Event) (sched : List Bool) :
    ∀ (c last : TwoCalls), c.done0 ++ c.rest0 = trace0 → c.done1 ++ c.rest1 = trace1 →
      List.count Event.mutexLock c.done0 + List.count Event.mutexLock c.done1
        = List.count Event.mutexUnlock c.done0 + List.count Event.mutexUnlock c.done1
          + (if c.locked then 1 else 0) →
      c.run sched = some last →
      last.done0 ++ last.rest0 = trace0 ∧ last.done1 ++ last.rest1 = trace1
        ∧ List.count Event.mutexLock last.done0 + List.count Event.mutexLock last.done1
          = List.count Event.mutexUnlock last.done0 + List.count Event.mutexUnlock last.done1
            + (if last.locked then 1 else 0) := by
  induction sched with
  | nil =>
    intro c last h0 h1 hbal hrun
    simp only [TwoCalls.run, Option.some.injEq] at hrun
    subst hrun
    exact ⟨h0, h1, hbal⟩
  | cons second sched ih =>
    intro c last h0 h1 hbal hrun
    simp only [TwoCalls.run] at hrun
    split at hrun
    · cases hrun
    · rename_i next hstep
      obtain ⟨k0, k1, kbal⟩ := step_keeps trace0 trace1 c next second h0 h1 hbal hstep
      exact ih next last k0 k1 kbal hrun

/-- In a trace that takes the mutex first, releases it last if at all and does not touch
it in between, a first part never holds more unlocks than locks. -/
theorem bracket_unlock_le (body tail done rest : List Event)
    (hbody : ∀ ev ∈ body, ev ≠ Event.mutexLock ∧ ev ≠ Event.mutexUnlock)
    (htail : tail = [] ∨ tail = [Event.mutexUnlock])
    (hsplit : done ++ rest = Event.mutexLock :: body ++ tail) :
    List.count Event.mutexUnlock done ≤ List.count Event.mutexLock done := by
  cases done with
  | nil => simp
  | cons d done =>
    simp only [List.cons_append, List.cons.injEq] at hsplit
    obtain ⟨hd, hsplit⟩ := hsplit
    subst hd
    have hle : List.count Event.mutexUnlock done
        ≤ List.count Event.mutexUnlock (body ++ tail) := by
      rw [← hsplit, List.count_append]; omega
    have hb : List.count Event.mutexUnlock body = 0 :=
      List.count_eq_zero.mpr (fun h => (hbody _ h).2 rfl)
    have ht : List.count Event.mutexUnlock tail ≤ 1 := by
      rcases htail with h | h <;> simp [h]
    rw [List.count_append, hb] at hle
    have e1 : List.count Event.mutexUnlock (Event.mutexLock :: done)
        = List.count Event.mutexUnlock done := by simp [List.count_cons]
    have e2 : List.count Event.mutexLock (Event.mutexLock :: done)
        = List.count Event.mutexLock done + 1 := by simp [List.count_cons]
    omega

/-- In such a trace, a call inside its device window has taken the mutex once and has
not released it. -/
theorem bracket_deviceOpen (body tail done rest : List Event)
    (hbody : ∀ ev ∈ body, ev ≠ Event.mutexLock ∧ ev ≠ Event.mutexUnlock)
    (htail : tail = [] ∨ tail = [Event.mutexUnlock])
    (hsplit : done ++ rest = Event.mutexLock :: body ++ tail)
    (hopen : deviceOpen done rest = true) :
    List.count Event.mutexLock done = 1 ∧ List.count Event.mutexUnlock done = 0 := by
  simp only [deviceOpen, Bool.and_eq_true, List.any_eq_true, List.contains_eq_any_beq,
    beq_iff_eq] at hopen
  obtain ⟨⟨ev, hev, _⟩, ⟨z, hclose, _⟩⟩ := hopen
  cases done with
  | nil => cases hev
  | cons d done =>
    simp only [List.cons_append, List.cons.injEq] at hsplit
    obtain ⟨hd, hsplit⟩ := hsplit
    subst hd
    have hin : ∀ x ∈ done, x ∈ body := by
      rcases htail with ht | ht
      · subst ht
        rw [List.append_nil] at hsplit
        intro x hx
        rw [← hsplit]
        exact List.mem_append_left _ hx
      · subst ht
        rcases List.eq_nil_or_concat rest with hr | ⟨front, last, hr⟩
        · rw [hr] at hclose; cases hclose
        · rw [hr, List.concat_eq_append, ← List.append_assoc] at hsplit
          have hparts := List.append_inj' hsplit rfl
          intro x hx
          rw [← hparts.1]
          exact List.mem_append_left _ hx
    have hl : List.count Event.mutexLock done = 0 :=
      List.count_eq_zero.mpr (fun h => (hbody _ (hin _ h)).1 rfl)
    have hu : List.count Event.mutexUnlock done = 0 :=
      List.count_eq_zero.mpr (fun h => (hbody _ (hin _ h)).2 rfl)
    constructor
    · simp [List.count_cons, hl]
    · simp [List.count_cons, hu]

/-- The trace of every call of `Play` takes the mutex first, releases it last if the call
ends, and does not touch it in between. -/
theorem Play_trace_bracket (p : Pollydent) (dev : AudioDevice) (fuel : Nat)
    (r : Option Reader) :
    ∃ body tail : List Event,
      (∀ ev ∈ body, ev ≠ Event.mutexLock ∧ ev ≠ Event.mutexUnlock)
        ∧ (tail = [] ∨ tail = [Event.mutexUnlock])
        ∧ (p.Play dev fuel r).trace = Event.mutexLock :: body ++ tail := by
  obtain ⟨body, hbody, hrunning, hended⟩ := Play_mutex_bracket p dev fuel r
  by_cases h : (p.Play dev fuel r).ret = Ret.running
  · exact ⟨body, [], hbody, Or.inl rfl, by rw [hrunning h]; simp⟩
  · exact ⟨body, [Event.mutexUnlock], hbody, Or.inr rfl, hended h⟩

/-- C10. Two calls of `Play` on the same `Pollydent` (one mutex), each doing the events
of its own run in order, whatever streams, devices and fuel they have and whatever the
schedule: in every state the schedule can lead to, the two calls are not both inside
their device window (context opened, its closing still to come), and a call that is
inside its window holds the mutex locked. -/
theorem Play_windows_never_overlap (p : Pollydent) (dev0 dev1 : AudioDevice)
    (fuel0 fuel1 : Nat) (r0 r1 : Option Reader) (sched : List Bool) (c : TwoCalls)
    (hrun : (TwoCalls.start (p.Play dev0 fuel0 r0).trace (p.Play dev1 fuel1 r1).trace).run
      sched = some c) :
    ¬ (deviceOpen c.done0 c.rest0 = true ∧ deviceOpen c.done1 c.rest1 = true)
      ∧ (deviceOpen c.done0 c.rest0 = true ∨ deviceOpen c.done1 c.rest1 = true →
          c.locked = true) := by
  obtain ⟨body0, tail0, hb0, ht0, htr0⟩ := Play_trace_bracket p dev0 fuel0 r0
  obtain ⟨body1, tail1, hb1, ht1, htr1⟩ := Play_trace_bracket p dev1 fuel1 r1
  obtain ⟨k0, k1, kbal⟩ := run_keeps _ _ sched _ c rfl rfl (by simp [TwoCalls.start]) hrun
  simp only [TwoCalls.start, List.nil_append] at k0 k1
  rw [htr0] at k0
  rw [htr1] at k1
  have hle0 := bracket_unlock_le body0 tail0 c.done0 c.rest0 hb0 ht0 k0
  have hle1 := bracket_unlock_le body1 tail1 c.done1 c.rest1 hb1 ht1 k1
  have hlocked : ∀ b : Bool, (if b then 1 else 0 : Nat) ≤ 1 := by
    intro b; cases b <;> simp
  have hl := hlocked c.locked
  constructor
  · rintro ⟨ho0, ho1⟩
    have h0 := bracket_deviceOpen body0 tail0 c.done0 c.rest0 hb0 ht0 k0 ho0
    have h1 := bracket_deviceOpen body1 tail1 c.done1 c.rest1 hb1 ht1 k1 ho1
    omega
  · intro ho
    cases hc : c.locked with
    | true => rfl
    | false =>
      rw [hc] at kbal
      simp only [Bool.false_eq_true, if_false] at kbal
      rcases ho with ho0 | ho1
      · have h0 := bracket_deviceOpen body0 tail0 c.done0 c.rest0 hb0 ht0 k0 ho0
        omega
      · have h1 := bracket_deviceOpen body1 tail1 c.done1 c.rest1 hb1 ht1 k1 ho1
        omega

/-- C10, at two calls on the stream of three reads: when the first call is over and the
second is inside its device window, the first is not, and the mutex is locked. -/
theorem Play_windows_never_overlap_witness :
    (TwoCalls.start (offlinePlayer.Play okDevice 3 (some threeReads)).trace
        (offlinePlayer.Play okDevice 3 (some threeReads)).trace).run firstThenSecond
        = some secondPlaying
      ∧ deviceOpen secondPlaying.done1 secondPlaying.rest1 = true
      ∧ (¬ (deviceOpen secondPlaying.done0 secondPlaying.rest0 = true
            ∧ deviceOpen secondPlaying.done1 secondPlaying.rest1 = true)
          ∧ (deviceOpen secondPlaying.done0 secondPlaying.rest0 = true
              ∨ deviceOpen secondPlaying.done1 secondPlaying.rest1 = true →
            secondPlaying.locked = true)) :=
  have hrun : (TwoCalls.start (offlinePlayer.Play okDevice 3 (some threeReads)).trace
      (offlinePlayer.Play okDevice 3 (some threeReads)).trace).run firstThenSecond
      = some secondPlaying := by decide
  ⟨hrun, by decide,
    Play_windows_never_overlap offlinePlayer okDevice okDevice 3 3 (some threeReads)
      (some threeReads) firstThenSecond secondPlaying hrun⟩

/-- The mutex is what keeps the windows apart. With the mutex, the second call cannot
take its first step while the first call holds the mutex; with the events of the mutex
taken out of the two traces, a schedule leads to a state where both calls are inside
their device window. -/
theorem windows_overlap_without_mutex :
    (TwoCalls.start (offlinePlayer.Play okDevice 3 (some threeReads)).trace
        (offlinePlayer.Play okDevice 3 (some threeReads)).trace).run [false, true] = none
      ∧ ((TwoCalls.start (withoutMutex (offlinePlayer.Play okDevice 3 (some threeReads)).trace)
          (withoutMutex (offlinePlayer.Play okDevice 3 (some threeReads)).trace)).run
          [false, false, false, false, false, true, true, true, true, true]).map
          (fun c => (deviceOpen c.done0 c.rest0, deviceOpen c.done1 c.rest1))
        = some (true, true) := by
  constructor <;> decide

end pollydent
